import Mathlib

set_option maxRecDepth 100000
set_option maxHeartbeats 1000000

/-- A JavaScript number as seen by the validation code: NaN, the two
infinities, or a finite amount held in integer cents (the repository keeps
all monetary amounts at two-decimal precision). -/
inductive JsNum where
  | nan
  | posInf
  | negInf
  | num (cents : ℤ)
  deriving DecidableEq

namespace JsNum

/-- JavaScript `isNaN`. -/
def isNaN : JsNum → Bool
  | nan => true
  | _ => false

/-- JavaScript strict `<`; every comparison involving NaN is false. -/
def lt : JsNum → JsNum → Bool
  | nan, _ => false
  | _, nan => false
  | negInf, negInf => false
  | negInf, _ => true
  | _, negInf => false
  | posInf, _ => false
  | num _, posInf => true
  | num a, num b => decide (a < b)

/-- JavaScript `<=`; every comparison involving NaN is false. -/
def le : JsNum → JsNum → Bool
  | nan, _ => false
  | _, nan => false
  | negInf, _ => true
  | _, negInf => false
  | num a, num b => decide (a ≤ b)
  | _, posInf => true
  | posInf, num _ => false

/-- The finite value in cents; 0 on NaN and the infinities, which the
success paths of the wallet never reach. -/
def cents : JsNum → ℤ
  | num c => c
  | _ => 0

end JsNum

/-- MIN_BET_AMOUNT from `src/lib/constants.ts` (5 units), in cents. -/
def minBetAmountCents : ℤ := 500

/-- MAX_BET_AMOUNT from `src/lib/constants.ts` (500 units), in cents. -/
def maxBetAmountCents : ℤ := 50000

/-- Wager status as stored on a bet document
(`'pending' | 'won' | 'lost' | 'withdrawn' | 'cashed_out_early'`). -/
inductive BetStatus where
  | pending
  | won
  | lost
  | withdrawn
  | cashedOutEarly
  deriving DecidableEq

/-- The `betType` discriminator of a placed bet (`'match' | 'game'`). -/
inductive BetKind where
  | matchBet
  | gameBet
  deriving DecidableEq

/-- A wager record, following the `PlacedBet` type of `src/types/index.ts`:
monetary fields in integer cents, odds in integer hundredths, times in
epoch milliseconds. -/
structure PlacedBet where
  id : String
  matchId : String
  stake : ℤ
  odds : ℤ
  potentialWinnings : ℤ
  matchTime : ℤ
  status : BetStatus
  betType : BetKind
  userId : String
  deriving DecidableEq

/-- The validation failures produced by `src/lib/validation.ts`, identified
by their title strings: "Invalid Stake", "Bet Too Small", "Bet Too Large",
"Insufficient Balance", "Bet Already Placed". -/
inductive ValidationFail where
  | invalidStake
  | betTooSmall
  | betTooLarge
  | insufficientBalance
  | duplicateBet
  deriving DecidableEq

/-- Embeds `validateBetPlacement` from `src/lib/validation.ts`: the rule
chain is checked in order and the first failing rule's error is returned;
`existingBets` is scanned for a pending match bet on the same `matchId`. -/
def validateBetPlacement (stake currentBalance minBetAmount maxBetAmount : JsNum)
    (matchId : String) (existingBets : List PlacedBet) : Option ValidationFail :=
  if stake.isNaN || JsNum.le stake (.num 0) then some .invalidStake
  else if JsNum.lt stake minBetAmount then some .betTooSmall
  else if JsNum.lt maxBetAmount stake then some .betTooLarge
  else if JsNum.lt currentBalance stake then some .insufficientBalance
  else if existingBets.any (fun b =>
      decide (b.matchId = matchId) && decide (b.status = BetStatus.pending)
        && decide (b.betType = BetKind.matchBet)) then some .duplicateBet
  else none

/-- The `actionType` argument of `validateGameAction`
(`'place_bet' | 'cash_out' | 'other_action'`). -/
inductive GameActionType where
  | placeBetAction
  | cashOutAction
  | otherAction
  deriving DecidableEq

/-- Embeds `validateGameAction` from `src/lib/validation.ts`: the stake
checks run only under `actionType = 'place_bet'`; every other action type
passes unconditionally. -/
def validateGameAction (actionType : GameActionType)
    (stake currentBalance minBetAmount maxBetAmount : JsNum) : Option ValidationFail :=
  if actionType = .placeBetAction then
    if stake.isNaN || JsNum.le stake (.num 0) then some .invalidStake
    else if JsNum.lt stake minBetAmount then some .betTooSmall
    else if JsNum.lt maxBetAmount stake then some .betTooLarge
    else if JsNum.lt currentBalance stake then some .insufficientBalance
    else none
  else none

/-- The wallet state owned by `VirtualWalletContext`: the balance in cents
and the list of this user's bet documents. -/
structure Wallet where
  balance : ℤ
  bets : List PlacedBet
  deriving DecidableEq

/-- The typed failures surfaced by the wallet operations. -/
inductive WalletErr where
  | validation (e : ValidationFail)
  | commitFailed
  | betNotFound
  | notWithdrawable
  | alreadySettled (s : BetStatus)
  | tooCloseToStart
  deriving DecidableEq

/-- BET_WITHDRAWAL_CUTOFF_MS from `VirtualWalletContext.tsx` (5 minutes). -/
def betWithdrawalCutoffMs : ℤ := 5 * 60 * 1000

/-- Computes `potentialWinnings = parseFloat((stake * odds).toFixed(2))` in
cents from a stake in cents and odds in hundredths, rounding half up. -/
def potentialWinningsCents (stakeCents oddsHundredths : ℤ) : ℤ :=
  Int.fdiv (stakeCents * oddsHundredths * 2 + 100) 200

/-- Embeds `addFunds`: a non-positive amount is rejected; otherwise the
balance is credited. -/
def addFunds (w : Wallet) (amount : ℤ) : Wallet :=
  if amount ≤ 0 then w else { w with balance := w.balance + amount }

/-- Embeds `updateBalance`: the delta is applied unconditionally — this path
performs no sign or overdraft check. -/
def updateBalance (w : Wallet) (amount : ℤ) : Wallet :=
  { w with balance := w.balance + amount }

/-- The bet document written by `placeBet` on its success path
(`status: 'pending'`, `betType: 'match'`). -/
def newMatchBet (uid matchId newId : String)
    (stakeCents oddsHundredths matchTime : ℤ) : PlacedBet :=
  { id := newId
    matchId := matchId
    stake := stakeCents
    odds := oddsHundredths
    potentialWinnings := potentialWinningsCents stakeCents oddsHundredths
    matchTime := matchTime
    status := .pending
    betType := .matchBet
    userId := uid }

/-- Embeds `placeBet` from `VirtualWalletContext.tsx`: validation against the
current snapshot first; on success one atomic batch writes the pending bet
document and debits the stake, mirrored into local state only after the
commit succeeds; `commitOk` models the batch commit outcome. -/
def placeBet (w : Wallet) (uid matchId newId : String) (stake : JsNum)
    (odds matchTime : ℤ) (commitOk : Bool) : Wallet × Option WalletErr :=
  match validateBetPlacement stake (.num w.balance) (.num minBetAmountCents)
      (.num maxBetAmountCents) matchId w.bets with
  | some e => (w, some (.validation e))
  | none =>
    if commitOk then
      ({ balance := w.balance - stake.cents
         bets := newMatchBet uid matchId newId stake.cents odds matchTime :: w.bets }, none)
    else (w, some .commitFailed)

/-- Embeds `placeGameBet`: validates via `validateGameAction` with
`actionType = 'place_bet'`; on success only the stake is debited, no bet
document is created. -/
def placeGameBet (w : Wallet) (stake minBet maxBet : JsNum) (commitOk : Bool) :
    Wallet × Option WalletErr :=
  match validateGameAction .placeBetAction stake (.num w.balance) minBet maxBet with
  | some e => (w, some (.validation e))
  | none =>
    if commitOk then ({ w with balance := w.balance - stake.cents }, none)
    else (w, some .commitFailed)

/-- Embeds `withdrawBet`: looks the bet up by id and owner, requires a match
bet in `pending` status and the 5-minute withdrawal cutoff, then atomically
marks it withdrawn and credits the stake back. -/
def withdrawBet (w : Wallet) (uid betId : String) (now : ℤ) (commitOk : Bool) :
    Wallet × Option WalletErr :=
  match w.bets.find? (fun b => decide (b.id = betId) && decide (b.userId = uid)) with
  | none => (w, some .betNotFound)
  | some b =>
    if b.betType ≠ .matchBet then (w, some .notWithdrawable)
    else if b.status ≠ .pending then (w, some (.alreadySettled b.status))
    else if b.matchTime - now ≤ betWithdrawalCutoffMs then (w, some .tooCloseToStart)
    else if commitOk then
      ({ balance := w.balance + b.stake
         bets := w.bets.map (fun x =>
           if x.id = betId then { x with status := .withdrawn } else x) }, none)
    else (w, some .commitFailed)

/-- The sweeper's filter in `resolveBetsAndUpdateState`: this user's pending
match bets whose match time has passed. -/
def resolvable (uid : String) (now : ℤ) (b : PlacedBet) : Bool :=
  decide (b.userId = uid) && decide (b.betType = BetKind.matchBet)
    && decide (b.status = BetStatus.pending) && decide (b.matchTime < now)

/-- Embeds `resolveBetsAndUpdateState`: resolves every matured pending match
bet of the user in one batch (`winOf` supplies the per-bet Bernoulli draw),
crediting the total winnings when positive; with nothing to resolve it
returns silently without touching any state. -/
def resolveBets (w : Wallet) (uid : String) (now : ℤ) (winOf : String → Bool)
    (commitOk : Bool) : Wallet × Option WalletErr :=
  let toResolve := w.bets.filter (resolvable uid now)
  if toResolve.length = 0 then (w, none)
  else
    let total := (toResolve.filter (fun b => winOf b.id)).foldl
      (fun s b => s + b.potentialWinnings) 0
    if commitOk then
      ({ balance := if 0 < total then w.balance + total else w.balance
         bets := w.bets.map (fun b =>
           if resolvable uid now b then
             { b with status := if winOf b.id then .won else .lost }
           else b) }, none)
    else (w, some .commitFailed)

/-- MIN_BET of the plane game (1 unit), in cents. -/
def planeMinBetCents : ℤ := 100

/-- MAX_BET of the plane game (100 units), in cents. -/
def planeMaxBetCents : ℤ := 10000

/-- MIN_MULTIPLIER_TARGET of the plane game (1.01), in hundredths. -/
def planeMinTarget : ℤ := 101

/-- MAX_MULTIPLIER_TARGET of the plane game (100), in hundredths. -/
def planeMaxTarget : ℤ := 10000

/-- Embeds the wallet-facing part of `startGame` in `PlaneGameClient.tsx`:
the stake is range-checked, checked against the balance, the auto-cash-out
target is range-checked, and only then is the stake debited through
`updateBalance(-bet)`. -/
def planeStart (w : Wallet) (bet target : JsNum) : Wallet :=
  if bet.isNaN || JsNum.lt bet (.num planeMinBetCents)
      || JsNum.lt (.num planeMaxBetCents) bet then w
  else if JsNum.lt (.num w.balance) bet then w
  else if target.isNaN || JsNum.lt target (.num planeMinTarget)
      || JsNum.lt (.num planeMaxTarget) target then w
  else updateBalance w (-bet.cents)

/-- Winnings of a plane-game cash-out: stake (cents) times multiplier
(hundredths), rounded to whole cents half up, as computed by `handleCashOut`
before being credited through `updateBalance`. -/
def winningsCents (stakeCents multHundredths : ℕ) : ℕ :=
  (stakeCents * multHundredths + 50) / 100

/-- The cash-out settlement path of the plane game:
`updateBalance(winnings)` with the nonnegative winnings of `handleCashOut`. -/
def gameCredit (w : Wallet) (stakeCents multHundredths : ℕ) : Wallet :=
  updateBalance w (winningsCents stakeCents multHundredths)

/-- One user-driven or sweeper-driven wallet operation among the guarded
mutation paths of the repository. -/
inductive WalletOp where
  | addFundsOp (amount : ℤ)
  | placeBetOp (uid matchId newId : String) (stake : JsNum)
      (odds matchTime : ℤ) (commitOk : Bool)
  | placeGameBetOp (stake minBet maxBet : JsNum) (commitOk : Bool)
  | planeStartOp (bet target : JsNum)
  | gameCreditOp (stakeCents multHundredths : ℕ)
  | withdrawOp (uid betId : String) (now : ℤ) (commitOk : Bool)
  | resolveOp (uid : String) (now : ℤ) (winOf : String → Bool) (commitOk : Bool)

/-- Applies one wallet operation to the wallet state. -/
def applyOp (w : Wallet) : WalletOp → Wallet
  | .addFundsOp a => addFunds w a
  | .placeBetOp uid mid nid stake odds mt ok => (placeBet w uid mid nid stake odds mt ok).1
  | .placeGameBetOp stake mn mx ok => (placeGameBet w stake mn mx ok).1
  | .planeStartOp bet target => planeStart w bet target
  | .gameCreditOp s m => gameCredit w s m
  | .withdrawOp uid bid now ok => (withdrawBet w uid bid now ok).1
  | .resolveOp uid now f ok => (resolveBets w uid now f ok).1

/-- Runs a sequence of wallet operations from a starting state. -/
def runOps (w : Wallet) : List WalletOp → Wallet
  | [] => w
  | op :: ops => runOps (applyOp w op) ops

/-- Phases of an active plane round; `idle`/`betting` precede any wallet
effect and carry no dynamics. -/
inductive GamePhase where
  | running
  | crashed
  | cashedOut
  deriving DecidableEq

/-- One active plane round together with the balance the game settles into:
multiplier, crash point and target in hundredths, stake in cents. -/
structure Round where
  phase : GamePhase
  mult : ℕ
  crashPoint : ℕ
  target : ℕ
  stake : ℕ
  balance : ℤ
  deriving DecidableEq

/-- Fuel-driven bit length: `bitlenAux fuel n` is the number of binary
digits of `n` whenever `n ≤ fuel` (and 0 for `n = 0`). -/
def bitlenAux : ℕ → ℕ → ℕ
  | 0, _ => 0
  | fuel + 1, n => if n = 0 then 0 else bitlenAux fuel (n / 2) + 1

/-- The number of binary digits of `n`. -/
def bitlen (n : ℕ) : ℕ := bitlenAux n n

/-- Rounds the exact quotient `a / b` to the nearest integer, ties to even —
the rounding mode of IEEE-754 binary64 arithmetic. -/
def divRoundEven (a b : ℕ) : ℕ :=
  if 2 * (a % b) < b then a / b
  else if b < 2 * (a % b) then a / b + 1
  else if (a / b) % 2 = 0 then a / b else a / b + 1

/-- A nonnegative IEEE-754 binary64 value `m * 2 ^ e` (JavaScript numbers
are binary64); produced by the rounding helpers with a 53-bit significand. -/
structure Fl where
  m : ℕ
  e : ℤ
  deriving DecidableEq

/-- The exact rational value of a binary64 number. -/
def Fl.val (x : Fl) : ℚ := (x.m : ℚ) * (2 : ℚ) ^ x.e

/-- Decides `2 ^ d ≤ a / b` by integer arithmetic. -/
def qpowLe (d : ℤ) (a b : ℕ) : Bool :=
  match d with
  | .ofNat n => decide (b * 2 ^ n ≤ a)
  | .negSucc n => decide (b ≤ a * 2 ^ (n + 1))

/-- Rounds `a * 2 ^ s / b` to the nearest integer, ties to even. -/
def divShift (a b : ℕ) (s : ℤ) : ℕ :=
  match s with
  | .ofNat n => divRoundEven (a * 2 ^ n) b
  | .negSucc n => divRoundEven a (b * 2 ^ (n + 1))

/-- The floor of the base-2 logarithm of `a / b` (for `a, b ≥ 1`), located
from the bit lengths of `a` and `b` and one integer comparison. -/
def flExp (a b : ℕ) : ℤ :=
  let d : ℤ := (bitlen a : ℤ) - (bitlen b : ℤ)
  if qpowLe d a b then d else d - 1

/-- The binary64 value nearest to `a / b` (round to nearest, ties to even):
the 53-bit significand rounds `(a / b) * 2 ^ (52 - e)` at exponent
`e = ⌊log₂ (a / b)⌋`.  This is the value JavaScript's `parseFloat` yields
for the decimal `a / b`. -/
def flOfRat (a b : ℕ) : Fl :=
  if a = 0 then ⟨0, 0⟩ else ⟨divShift a b (52 - flExp a b), flExp a b - 52⟩

/-- Rounds the exact dyadic `m * 2 ^ e` to binary64. -/
def flOfDyadic (m : ℕ) (e : ℤ) : Fl :=
  match e with
  | .ofNat n => flOfRat (m * 2 ^ n) 1
  | .negSucc n => flOfRat m (2 ^ (n + 1))

/-- Binary64 addition: the exact sum, rounded to 53 bits. -/
def flAdd (x y : Fl) : Fl :=
  if x.e ≤ y.e then flOfDyadic (x.m + y.m * 2 ^ (y.e - x.e).toNat) x.e
  else flOfDyadic (y.m + x.m * 2 ^ (x.e - y.e).toNat) y.e

/-- Binary64 multiplication: the exact product, rounded to 53 bits. -/
def flMul (x y : Fl) : Fl := flOfDyadic (x.m * y.m) (x.e + y.e)

/-- The literal `0.01` as binary64. -/
def c001 : Fl := flOfRat 1 100

/-- The literal `0.005` as binary64. -/
def c0005 : Fl := flOfRat 1 200

/-- JavaScript `v.toFixed(2)` reparsed, in integer hundredths: the exact
binary64 value rounded to the nearest hundredth (a binary64 value is never
an exact tie between hundredths, so the tie direction is immaterial). -/
def hundredths (x : Fl) : ℕ :=
  match x.e with
  | .ofNat n => 100 * x.m * 2 ^ n
  | .negSucc n => (200 * x.m + 2 ^ (n + 1)) / 2 ^ (n + 2)

/-- One 100 ms tick of the multiplier, following the source expression
`parseFloat((prev + 0.01 + prev * 0.005).toFixed(2))` under IEEE-754
binary64 semantics: the stored two-decimal multiplier `k` (in hundredths)
is the nearest binary64 to `k / 100`, the sum is evaluated left to right
with each operation rounded, and the result is reported to two decimals.
In particular `tickMult 100 = 101`: the double `1.00 + 0.01 + 1.00 * 0.005`
is `1.0149999999999999…`, which `toFixed(2)` reports as `"1.01"`. -/
def tickMult (k : ℕ) : ℕ :=
  hundredths (flAdd (flAdd (flOfRat k 100) c001) (flMul (flOfRat k 100) c0005))

/-- Iterated multiplier ticks. -/
def tickN : ℕ → ℕ → ℕ
  | 0, k => k
  | n + 1, k => tickMult (tickN n k)

/-- The game-over effect of `PlaneGameClient.tsx`: while running, a
multiplier at or past the crash point crashes the round with the reported
multiplier clamped to the crash point and no credit; otherwise a multiplier
at or past the auto-cash-out target cashes out at the current multiplier,
crediting `stake * multiplier` through `updateBalance`. -/
def checkRound (r : Round) : Round :=
  if r.phase = .running then
    if r.crashPoint ≤ r.mult then
      { r with phase := .crashed, mult := r.crashPoint }
    else if r.target ≤ r.mult then
      { r with phase := .cashedOut
               balance := r.balance + (winningsCents r.stake r.mult : ℤ) }
    else r
  else r

/-- One advance of the round: the interval tick followed by the game-over
effect; terminal phases are unaffected (the interval has been stopped). -/
def step (r : Round) : Round :=
  if r.phase = .running then checkRound { r with mult := tickMult r.mult } else r

/-- Iterated advances of the round. -/
def stepN : ℕ → Round → Round
  | 0, r => r
  | n + 1, r => step (stepN n r)

/-- The manual cash-out command (`handleCashOut`): only a running round
cashes out, at the current multiplier, crediting the winnings. -/
def userCashOut (r : Round) : Round :=
  if r.phase = .running then
    { r with phase := .cashedOut
             balance := r.balance + (winningsCents r.stake r.mult : ℤ) }
  else r

/-- The round state right after `startGame` succeeds: phase running with
multiplier 1.00, followed by the immediately firing game-over effect (which
crashes a 1.00 crash point instantly). -/
def initRound (stake crashPoint target : ℕ) (balance : ℤ) : Round :=
  checkRound { phase := .running, mult := 100, crashPoint := crashPoint
               target := target, stake := stake, balance := balance }

/-- Round states reachable from a start state by ticks and manual cash-outs. -/
inductive Reaches : Round → Round → Prop
  | refl (r : Round) : Reaches r r
  | tick {a b : Round} : Reaches a b → Reaches a (step b)
  | cashOut {a b : Round} : Reaches a b → Reaches a (userCashOut b)

/-- C9: `validateGameAction` performs its stake checks only for
`actionType = 'place_bet'`; for every other action type it returns success
for every stake and every balance — including a NaN stake, a non-positive
stake, or a stake exceeding the balance — while under `place_bet` a NaN
stake is rejected as an invalid stake. -/
theorem c9_validateGameAction_gated (a : GameActionType)
    (stake bal minB maxB : JsNum) (ha : a ≠ .placeBetAction) :
    validateGameAction a stake bal minB maxB = none ∧
    validateGameAction .placeBetAction .nan bal minB maxB = some .invalidStake := by
  constructor
  · simp [validateGameAction, ha]
  · simp [validateGameAction, JsNum.isNaN]

/-- C9 witness: a cash-out action with a NaN stake against a zero balance
passes validation. -/
theorem c9_witness :
    validateGameAction .cashOutAction .nan (.num 0) (.num minBetAmountCents)
      (.num maxBetAmountCents) = none :=
  (c9_validateGameAction_gated .cashOutAction .nan (.num 0) (.num minBetAmountCents)
    (.num maxBetAmountCents) (by decide)).1

/-- The fuel-driven bit length of zero is zero. -/
theorem bitlenAux_zero (fuel : ℕ) : bitlenAux fuel 0 = 0 := by
  cases fuel <;> simp [bitlenAux]

/-- Bit-length bounds under sufficient fuel. -/
theorem bitlenAux_bounds : ∀ fuel n : ℕ, n ≤ fuel → 1 ≤ n →
    2 ^ (bitlenAux fuel n - 1) ≤ n ∧ n < 2 ^ bitlenAux fuel n := by
  intro fuel
  induction fuel with
  | zero => intro n h1 h2; omega
  | succ f ih =>
    intro n hle hn
    rw [bitlenAux, if_neg (by omega)]
    by_cases h2 : n / 2 = 0
    · have hn1 : n = 1 := by omega
      subst hn1
      rw [h2, bitlenAux_zero]
      norm_num
    · have hfl : n / 2 ≤ f := by omega
      have hone : 1 ≤ n / 2 := by omega
      obtain ⟨hlo, hhi⟩ := ih (n / 2) hfl hone
      set L := bitlenAux f (n / 2) with hL
      have hL1 : 1 ≤ L := by
        rcases Nat.eq_zero_or_pos L with h | h
        · rw [h, pow_zero] at hhi; omega
        · exact h
      have e1 : 2 ^ (L + 1) = 2 * 2 ^ L := by rw [pow_succ]; ring
      have e2 : 2 ^ L = 2 * 2 ^ (L - 1) := by
        conv_lhs => rw [show L = (L - 1) + 1 by omega]
        rw [pow_succ]; ring
      refine ⟨?_, ?_⟩
      · rw [Nat.add_sub_cancel]
        omega
      · omega

/-- Bit-length bounds: for positive `n`, `2 ^ (bitlen n - 1) ≤ n < 2 ^ bitlen n`. -/
theorem bitlen_bounds {n : ℕ} (hn : 1 ≤ n) :
    2 ^ (bitlen n - 1) ≤ n ∧ n < 2 ^ bitlen n :=
  bitlenAux_bounds n n le_rfl hn

/-- Integer bounds for the ties-to-even rounding of `a / b`. -/
theorem divRoundEven_bounds (a : ℕ) {b : ℕ} (hb : 0 < b) :
    2 * a ≤ 2 * divRoundEven a b * b + b ∧ 2 * divRoundEven a b * b ≤ 2 * a + b := by
  have hdm : b * (a / b) + a % b = a := Nat.div_add_mod a b
  have hr : a % b < b := Nat.mod_lt _ hb
  have e1 : 2 * (a / b) * b = 2 * (b * (a / b)) := by ring
  have e2 : 2 * (a / b + 1) * b = 2 * (b * (a / b)) + 2 * b := by ring
  unfold divRoundEven
  split_ifs with h1 h2 h3 <;> constructor <;> first
    | (rw [e1]; omega)
    | (rw [e2]; omega)

/-- The ties-to-even rounding of `a / b` is within one half of the exact
quotient. -/
theorem divRoundEven_close (a : ℕ) {b : ℕ} (hb : 0 < b) :
    |(divRoundEven a b : ℚ) - a / b| ≤ 1 / 2 := by
  obtain ⟨h1, h2⟩ := divRoundEven_bounds a hb
  have hbq : (0 : ℚ) < b := by exact_mod_cast hb
  have h1q : (2 * a : ℚ) ≤ 2 * divRoundEven a b * b + b := by exact_mod_cast h1
  have h2q : (2 * (divRoundEven a b) * b : ℚ) ≤ 2 * a + b := by exact_mod_cast h2
  have heq : (divRoundEven a b : ℚ) - a / b = ((divRoundEven a b : ℚ) * b - a) / b := by
    field_simp
  rw [heq, abs_div, abs_of_pos hbq, div_le_iff hbq, abs_le]
  constructor <;> nlinarith

/-- Correctness of the integer test for `2 ^ d ≤ a / b`. -/
theorem qpowLe_le {d : ℤ} {a b : ℕ} (hb : 0 < b) (h : qpowLe d a b = true) :
    (2 : ℚ) ^ d ≤ (a : ℚ) / b := by
  have hbq : (0 : ℚ) < b := by exact_mod_cast hb
  cases d with
  | ofNat n =>
    simp only [qpowLe, decide_eq_true_eq] at h
    rw [le_div_iff hbq]
    have hc : ((b * 2 ^ n : ℕ) : ℚ) ≤ (a : ℚ) := by exact_mod_cast h
    calc (2 : ℚ) ^ (Int.ofNat n) * b = ((b * 2 ^ n : ℕ) : ℚ) := by
          push_cast
          rw [Int.ofNat_eq_natCast, zpow_natCast]
          ring
    _ ≤ (a : ℚ) := hc
  | negSucc n =>
    simp only [qpowLe, decide_eq_true_eq] at h
    rw [zpow_negSucc, inv_eq_one_div, div_le_div_iff (by positivity) hbq]
    have hc : (b : ℚ) ≤ ((a * 2 ^ (n + 1) : ℕ) : ℚ) := by exact_mod_cast h
    push_cast at hc ⊢
    linarith

/-- The located exponent satisfies `2 ^ flExp a b ≤ 2 * (a / b)`. -/
theorem flExp_le {a b : ℕ} (ha : 0 < a) (hb : 0 < b) :
    (2 : ℚ) ^ flExp a b ≤ 2 * ((a : ℚ) / b) := by
  have hbq : (0 : ℚ) < b := by exact_mod_cast hb
  have haq : (0 : ℚ) < a := by exact_mod_cast ha
  have habq : (0 : ℚ) < (a : ℚ) / b := by positivity
  unfold flExp
  by_cases h : qpowLe ((bitlen a : ℤ) - bitlen b) a b
  · rw [if_pos h]
    have := qpowLe_le hb h
    linarith
  · rw [if_neg h]
    obtain ⟨hla, _⟩ := bitlen_bounds ha
    obtain ⟨_, hlb⟩ := bitlen_bounds hb
    have hla1 : 1 ≤ bitlen a := by
      rcases Nat.eq_zero_or_pos (bitlen a) with h0 | h0
      · exfalso
        have hbb := (bitlen_bounds ha).2
        rw [h0, pow_zero] at hbb
        omega
      · exact h0
    have h1 : ((2 ^ (bitlen a - 1) : ℕ) : ℚ) ≤ a := by exact_mod_cast hla
    have h2 : (b : ℚ) ≤ ((2 ^ bitlen b : ℕ) : ℚ) := by exact_mod_cast le_of_lt hlb
    have hepow : (2 : ℚ) ^ ((bitlen a : ℤ) - bitlen b - 1)
        = ((2 ^ (bitlen a - 1) : ℕ) : ℚ) / ((2 ^ bitlen b : ℕ) : ℚ) := by
      push_cast
      rw [← zpow_natCast (2 : ℚ) (bitlen a - 1), ← zpow_natCast (2 : ℚ) (bitlen b),
        ← zpow_sub₀ (by norm_num : (2 : ℚ) ≠ 0)]
      congr 1
      omega
    rw [hepow]
    have hstep : ((2 ^ (bitlen a - 1) : ℕ) : ℚ) / ((2 ^ bitlen b : ℕ) : ℚ) ≤ (a : ℚ) / b :=
      div_le_div (le_of_lt haq) h1 hbq h2
    linarith

/-- The shifted ties-to-even rounding is within one half of
`(a / b) * 2 ^ s`. -/
theorem divShift_close {a b : ℕ} (hb : 0 < b) (s : ℤ) :
    |(divShift a b s : ℚ) - (a : ℚ) / b * (2 : ℚ) ^ s| ≤ 1 / 2 := by
  have hbq : (0 : ℚ) < b := by exact_mod_cast hb
  cases s with
  | ofNat n =>
    have h := divRoundEven_close (a * 2 ^ n) hb
    have hid : ((a * 2 ^ n : ℕ) : ℚ) / b = (a : ℚ) / b * (2 : ℚ) ^ (Int.ofNat n) := by
      push_cast
      rw [Int.ofNat_eq_natCast, zpow_natCast]
      ring
    rw [divShift, ← hid]
    exact_mod_cast h
  | negSucc n =>
    have hb2 : 0 < b * 2 ^ (n + 1) := by positivity
    have h := divRoundEven_close a hb2
    have hid : (a : ℚ) / ((b * 2 ^ (n + 1) : ℕ) : ℚ)
        = (a : ℚ) / b * (2 : ℚ) ^ (Int.negSucc n) := by
      rw [zpow_negSucc, ← div_eq_mul_inv, div_div]
      push_cast
      ring
    rw [divShift, ← hid]
    exact_mod_cast h

/-- The rounded binary64 value of `a / b` has relative error at most
`2 ^ (-52)`. -/
theorem flOfRat_close {a b : ℕ} (ha : 0 < a) (hb : 0 < b) :
    |(flOfRat a b).val - (a : ℚ) / b| ≤ (a : ℚ) / b * (2 : ℚ) ^ (-52 : ℤ) := by
  have hbq : (0 : ℚ) < b := by exact_mod_cast hb
  have haq : (0 : ℚ) < a := by exact_mod_cast ha
  rw [flOfRat, if_neg (by omega)]
  have hds := divShift_close (a := a) hb (52 - flExp a b)
  have hpos : (0 : ℚ) < (2 : ℚ) ^ (flExp a b - 52 : ℤ) :=
    zpow_pos (by norm_num) _
  have hco : (2 : ℚ) ^ ((52 : ℤ) - flExp a b) * (2 : ℚ) ^ (flExp a b - (52 : ℤ)) = 1 := by
    rw [← zpow_add₀ (by norm_num : (2 : ℚ) ≠ 0)]
    rw [show (52 : ℤ) - flExp a b + (flExp a b - 52) = 0 by ring, zpow_zero]
  have hval : Fl.val ⟨divShift a b (52 - flExp a b), flExp a b - 52⟩ - (a : ℚ) / b
      = ((divShift a b (52 - flExp a b) : ℚ)
          - (a : ℚ) / b * (2 : ℚ) ^ ((52 : ℤ) - flExp a b))
        * (2 : ℚ) ^ (flExp a b - (52 : ℤ)) := by
    rw [Fl.val]
    calc (divShift a b (52 - flExp a b) : ℚ) * (2 : ℚ) ^ (flExp a b - (52 : ℤ)) - (a : ℚ) / b
        = (divShift a b (52 - flExp a b) : ℚ) * (2 : ℚ) ^ (flExp a b - (52 : ℤ))
          - (a : ℚ) / b * ((2 : ℚ) ^ ((52 : ℤ) - flExp a b)
            * (2 : ℚ) ^ (flExp a b - (52 : ℤ))) := by rw [hco, mul_one]
    _ = ((divShift a b (52 - flExp a b) : ℚ)
          - (a : ℚ) / b * (2 : ℚ) ^ ((52 : ℤ) - flExp a b))
        * (2 : ℚ) ^ (flExp a b - (52 : ℤ)) := by ring
  rw [hval, abs_mul, abs_of_pos hpos]
  have hb1 := mul_le_mul_of_nonneg_right hds (le_of_lt hpos)
  have hE : (2 : ℚ) ^ (flExp a b - (52 : ℤ)) = (2 : ℚ) ^ flExp a b * (2 : ℚ) ^ (-52 : ℤ) := by
    rw [show flExp a b - (52 : ℤ) = flExp a b + (-52 : ℤ) by ring,
      zpow_add₀ (by norm_num : (2 : ℚ) ≠ 0)]
  have hle := flExp_le ha hb
  have h52 : (0 : ℚ) < (2 : ℚ) ^ (-52 : ℤ) := zpow_pos (by norm_num) _
  calc |(divShift a b (52 - flExp a b) : ℚ)
          - (a : ℚ) / b * (2 : ℚ) ^ ((52 : ℤ) - flExp a b)|
        * (2 : ℚ) ^ (flExp a b - (52 : ℤ))
      ≤ 1 / 2 * (2 : ℚ) ^ (flExp a b - (52 : ℤ)) := hb1
  _ = 1 / 2 * ((2 : ℚ) ^ flExp a b * (2 : ℚ) ^ (-52 : ℤ)) := by rw [hE]
  _ ≤ 1 / 2 * (2 * ((a : ℚ) / b) * (2 : ℚ) ^ (-52 : ℤ)) := by nlinarith
  _ = (a : ℚ) / b * (2 : ℚ) ^ (-52 : ℤ) := by ring

/-- The rounded binary64 value of a positive dyadic `m * 2 ^ e` has relative
error at most `2 ^ (-52)`. -/
theorem flOfDyadic_close {m : ℕ} (hm : 0 < m) (e : ℤ) :
    |(flOfDyadic m e).val - (m : ℚ) * (2 : ℚ) ^ e|
      ≤ (m : ℚ) * (2 : ℚ) ^ e * (2 : ℚ) ^ (-52 : ℤ) := by
  cases e with
  | ofNat n =>
    have h := flOfRat_close (a := m * 2 ^ n) (b := 1) (by positivity) one_pos
    have hid : ((m * 2 ^ n : ℕ) : ℚ) / ((1 : ℕ) : ℚ) = (m : ℚ) * (2 : ℚ) ^ (Int.ofNat n) := by
      push_cast
      rw [Int.ofNat_eq_natCast, zpow_natCast, div_one]
    rw [flOfDyadic, ← hid]
    exact h
  | negSucc n =>
    have h := flOfRat_close (a := m) (b := 2 ^ (n + 1)) hm (by positivity)
    have hid : (m : ℚ) / ((2 ^ (n + 1) : ℕ) : ℚ) = (m : ℚ) * (2 : ℚ) ^ (Int.negSucc n) := by
      rw [zpow_negSucc, ← div_eq_mul_inv]
      push_cast
      rfl
    rw [flOfDyadic, ← hid]
    exact h

/-- A binary64 number with positive value has a positive significand. -/
theorem Fl.m_pos_of_val_pos {x : Fl} (h : 0 < x.val) : 0 < x.m := by
  by_contra hc
  push_neg at hc
  have hm0 : x.m = 0 := by omega
  rw [Fl.val, hm0] at h
  simp at h

/-- Binary64 addition of values with a positive first significand has
relative error at most `2 ^ (-52)`. -/
theorem flAdd_close {x y : Fl} (hx : 0 < x.m) :
    |(flAdd x y).val - (x.val + y.val)| ≤ (x.val + y.val) * (2 : ℚ) ^ (-52 : ℤ) := by
  rw [flAdd]
  by_cases h : x.e ≤ y.e
  · rw [if_pos h]
    have hsum : ((x.m + y.m * 2 ^ (y.e - x.e).toNat : ℕ) : ℚ) * (2 : ℚ) ^ x.e
        = x.val + y.val := by
      push_cast
      rw [add_mul, Fl.val, Fl.val, mul_assoc]
      congr 2
      rw [← zpow_natCast (2 : ℚ) (y.e - x.e).toNat,
        ← zpow_add₀ (by norm_num : (2 : ℚ) ≠ 0)]
      congr 1
      omega
    have h1 := flOfDyadic_close (m := x.m + y.m * 2 ^ (y.e - x.e).toNat) (by positivity) x.e
    rw [hsum] at h1
    exact h1
  · rw [if_neg h]
    have hsum : ((y.m + x.m * 2 ^ (x.e - y.e).toNat : ℕ) : ℚ) * (2 : ℚ) ^ y.e
        = x.val + y.val := by
      push_cast
      rw [add_mul, Fl.val, Fl.val, mul_assoc]
      rw [add_comm]
      congr 2
      rw [← zpow_natCast (2 : ℚ) (x.e - y.e).toNat,
        ← zpow_add₀ (by norm_num : (2 : ℚ) ≠ 0)]
      congr 1
      omega
    have hm : 0 < y.m + x.m * 2 ^ (x.e - y.e).toNat := by positivity
    have h1 := flOfDyadic_close hm y.e
    rw [hsum] at h1
    exact h1

/-- Binary64 multiplication of values with positive significands has
relative error at most `2 ^ (-52)`. -/
theorem flMul_close {x y : Fl} (hx : 0 < x.m) (hy : 0 < y.m) :
    |(flMul x y).val - x.val * y.val| ≤ x.val * y.val * (2 : ℚ) ^ (-52 : ℤ) := by
  rw [flMul]
  have hprod : ((x.m * y.m : ℕ) : ℚ) * (2 : ℚ) ^ (x.e + y.e) = x.val * y.val := by
    push_cast
    rw [Fl.val, Fl.val, zpow_add₀ (by norm_num : (2 : ℚ) ≠ 0)]
    ring
  have h := flOfDyadic_close (Nat.mul_pos hx hy) (x.e + y.e)
  rw [hprod] at h
  exact h

/-- A natural number below `100 * val + 1/2` is at most the reported
two-decimal reading. -/
theorem hundredths_ge {x : Fl} {n : ℕ} (h : (n : ℚ) ≤ 100 * x.val + 1 / 2) :
    n ≤ hundredths x := by
  rcases hx : x.e with t | t
  · have hval : x.val = (x.m : ℚ) * 2 ^ t := by
      rw [Fl.val, hx, Int.ofNat_eq_natCast, zpow_natCast]
    unfold hundredths
    rw [hx]
    rw [hval] at h
    by_contra hc
    push_neg at hc
    have hcq : ((100 * x.m * 2 ^ t : ℕ) : ℚ) + 1 ≤ (n : ℚ) := by
      exact_mod_cast hc
    push_cast at hcq
    linarith
  · have hval : x.val = (x.m : ℚ) / 2 ^ (t + 1) := by
      rw [Fl.val, hx, zpow_negSucc, ← div_eq_mul_inv]
    unfold hundredths
    rw [hx]
    rw [Nat.le_div_iff_mul_le (by positivity)]
    rw [hval] at h
    have hp : (0 : ℚ) < 2 ^ (t + 1) := by positivity
    have hq : (n : ℚ) * 2 ^ (t + 2) ≤ 200 * x.m + 2 ^ (t + 1) := by
      have h2 := mul_le_mul_of_nonneg_right h (le_of_lt hp)
      have hmc : 100 * ((x.m : ℚ) / 2 ^ (t + 1)) * 2 ^ (t + 1) = 100 * (x.m : ℚ) := by
        field_simp
      rw [show (2 : ℚ) ^ (t + 2) = 2 * 2 ^ (t + 1) by ring]
      nlinarith [h2, hmc]
    exact_mod_cast hq

/-- A value within binary64 relative error of a nonnegative target is at
least `999999/1000000` of it. -/
theorem close_lower {x t : ℚ} (h : |x - t| ≤ t * (2 : ℚ) ^ (-52 : ℤ)) (ht : 0 ≤ t) :
    t * (999999 / 1000000) ≤ x := by
  have h1 := (abs_le.mp h).1
  have hev : (2 : ℚ) ^ (-52 : ℤ) = 1 / 4503599627370496 := by norm_num
  rw [hev] at h1
  nlinarith [h1, ht]

/-- The faithful binary64 tick gains at least one hundredth from any
multiplier of at least 1.00. -/
theorem tickMult_ge {k : ℕ} (hk : 100 ≤ k) : k + 1 ≤ tickMult k := by
  unfold tickMult
  have hq1 : (1 : ℚ) ≤ (k : ℚ) / 100 := by
    rw [le_div_iff (by norm_num)]
    exact_mod_cast (by omega : 100 ≤ k)
  have hq0 : (0 : ℚ) ≤ (k : ℚ) / 100 := by linarith
  have hpc : |(flOfRat k 100).val - (k : ℚ) / 100| ≤ (k : ℚ) / 100 * (2 : ℚ) ^ (-52 : ℤ) := by
    have h := flOfRat_close (a := k) (b := 100) (by omega) (by norm_num)
    exact_mod_cast h
  have hpv := close_lower hpc hq0
  have hppos : 0 < (flOfRat k 100).val := by linarith
  have hpm : 0 < (flOfRat k 100).m := Fl.m_pos_of_val_pos hppos
  have hc1 : |c001.val - 1 / 100| ≤ 1 / 100 * (2 : ℚ) ^ (-52 : ℤ) := by
    have h := flOfRat_close (a := 1) (b := 100) one_pos (by norm_num)
    have hcast : ((1 : ℕ) : ℚ) / ((100 : ℕ) : ℚ) = 1 / 100 := by norm_num
    rw [show c001 = flOfRat 1 100 from rfl, hcast] at *
    exact h
  have hc1v := close_lower hc1 (by norm_num)
  have hc1pos : 0 < c001.val := by linarith
  have hc5 : |c0005.val - 1 / 200| ≤ 1 / 200 * (2 : ℚ) ^ (-52 : ℤ) := by
    have h := flOfRat_close (a := 1) (b := 200) one_pos (by norm_num)
    have hcast : ((1 : ℕ) : ℚ) / ((200 : ℕ) : ℚ) = 1 / 200 := by norm_num
    rw [show c0005 = flOfRat 1 200 from rfl, hcast] at *
    exact h
  have hc5v := close_lower hc5 (by norm_num)
  have hc5pos : 0 < c0005.val := by linarith
  have hc5m : 0 < c0005.m := Fl.m_pos_of_val_pos hc5pos
  have hadd1 : |(flAdd (flOfRat k 100) c001).val - ((flOfRat k 100).val + c001.val)|
      ≤ ((flOfRat k 100).val + c001.val) * (2 : ℚ) ^ (-52 : ℤ) := flAdd_close hpm
  have hs1lo := close_lower hadd1 (by linarith)
  have hAB1 : ((k : ℚ) / 100 * (999999 / 1000000) + 1 / 100 * (999999 / 1000000))
      * (999999 / 1000000)
      ≤ ((flOfRat k 100).val + c001.val) * (999999 / 1000000) := by
    apply mul_le_mul_of_nonneg_right _ (by norm_num)
    linarith
  have hs1v := le_trans hAB1 hs1lo
  have hs1pos : 0 < (flAdd (flOfRat k 100) c001).val := by nlinarith
  have hs1m : 0 < (flAdd (flOfRat k 100) c001).m := Fl.m_pos_of_val_pos hs1pos
  have hmul : |(flMul (flOfRat k 100) c0005).val - (flOfRat k 100).val * c0005.val|
      ≤ (flOfRat k 100).val * c0005.val * (2 : ℚ) ^ (-52 : ℤ) := flMul_close hpm hc5m
  have hprlo := close_lower hmul (by positivity)
  have hAB2 : (k : ℚ) / 100 * (999999 / 1000000) * (1 / 200 * (999999 / 1000000))
      ≤ (flOfRat k 100).val * c0005.val :=
    mul_le_mul hpv hc5v (by norm_num) (le_of_lt hppos)
  have hprv : (k : ℚ) / 100 * (999999 / 1000000) * (1 / 200 * (999999 / 1000000))
      * (999999 / 1000000) ≤ (flMul (flOfRat k 100) c0005).val := by
    have hstep := mul_le_mul_of_nonneg_right hAB2 (by norm_num : (0:ℚ) ≤ 999999 / 1000000)
    linarith
  have hprpos : 0 < (flMul (flOfRat k 100) c0005).val := by nlinarith
  have hadd2 : |(flAdd (flAdd (flOfRat k 100) c001) (flMul (flOfRat k 100) c0005)).val
        - ((flAdd (flOfRat k 100) c001).val + (flMul (flOfRat k 100) c0005).val)|
      ≤ ((flAdd (flOfRat k 100) c001).val + (flMul (flOfRat k 100) c0005).val)
        * (2 : ℚ) ^ (-52 : ℤ) := flAdd_close hs1m
  have hvlo := close_lower hadd2 (by linarith)
  have hvv : (((k : ℚ) / 100 * (999999 / 1000000) + 1 / 100 * (999999 / 1000000))
        * (999999 / 1000000)
        + (k : ℚ) / 100 * (999999 / 1000000) * (1 / 200 * (999999 / 1000000))
          * (999999 / 1000000)) * (999999 / 1000000)
      ≤ (flAdd (flAdd (flOfRat k 100) c001) (flMul (flOfRat k 100) c0005)).val := by
    have hstep := mul_le_mul_of_nonneg_right (add_le_add hs1v hprv)
      (by norm_num : (0:ℚ) ≤ 999999 / 1000000)
    linarith
  apply hundredths_ge
  push_cast
  linarith [hvv, hq1]

/-- Each iterate of the multiplier tick from at least 1.00 gains at least
one hundredth and stays at least 1.00. -/
theorem tickN_lower {k : ℕ} (hk : 100 ≤ k) :
    ∀ n : ℕ, k + n ≤ tickN n k ∧ 100 ≤ tickN n k := by
  intro n
  induction n with
  | zero => simpa [tickN] using hk
  | succ m ih =>
    have h := tickMult_ge ih.2
    rw [show tickN (m + 1) k = tickMult (tickN m k) from rfl]
    omega

/-- C10: for every multiplier of at least 1.00, one tick strictly increases
it by at least 0.01 (one hundredth), so the multiplier sequence of a running
round is strictly increasing and eventually reaches any finite bound. -/
theorem c10_tick_growth (k : ℕ) (hk : 100 ≤ k) :
    k + 1 ≤ tickMult k ∧ k < tickMult k ∧ ∀ c : ℕ, ∃ n : ℕ, c ≤ tickN n k := by
  have h := tickMult_ge hk
  refine ⟨h, by omega, ?_⟩
  intro c
  exact ⟨c, le_trans (by omega) (tickN_lower hk c).1⟩

/-- C10 witness: from multiplier 1.00 one tick reaches at least 1.01, and
some number of ticks reaches 5.00. -/
theorem c10_witness : 101 ≤ tickMult 100 ∧ ∃ n : ℕ, 500 ≤ tickN n 100 :=
  ⟨(c10_tick_growth 100 (by decide)).1, (c10_tick_growth 100 (by decide)).2.2 500⟩

/-- C4 counterexample: the non-finite stake +Infinity passes the first rule
(`isNaN(stake) || stake <= 0` evaluates to false on it) and is rejected by
the maximum-stake rule as "Bet Too Large", not by rule 1 as an invalid
stake. -/
theorem c4_counterexample :
    validateBetPlacement .posInf (.num 100000) (.num minBetAmountCents)
        (.num maxBetAmountCents) "m1" [] = some .betTooLarge ∧
      validateBetPlacement .posInf (.num 100000) (.num minBetAmountCents)
        (.num maxBetAmountCents) "m1" [] ≠ some .invalidStake := by
  decide

/-- C4 (amended): `validateBetPlacement` checks its rules in the fixed order
— (1) stake is a number (not NaN) and positive, (2) at least the minimum,
(3) at most the maximum, (4) at most the balance, (5) no pending match bet
on the same match — with the first failing rule determining the error; NaN
and non-positive stakes (including -Infinity) fall under rule 1, while
+Infinity passes rules 1 and 2 and is rejected by rule 3 under the default
limits. -/
theorem c4_validation_order (stake bal minB maxB : JsNum)
    (mid : String) (bets : List PlacedBet) :
    (stake.isNaN = true ∨ JsNum.le stake (.num 0) = true →
      validateBetPlacement stake bal minB maxB mid bets = some .invalidStake) ∧
    (stake.isNaN = false → JsNum.le stake (.num 0) = false →
      JsNum.lt stake minB = true →
      validateBetPlacement stake bal minB maxB mid bets = some .betTooSmall) ∧
    (stake.isNaN = false → JsNum.le stake (.num 0) = false →
      JsNum.lt stake minB = false → JsNum.lt maxB stake = true →
      validateBetPlacement stake bal minB maxB mid bets = some .betTooLarge) ∧
    (stake.isNaN = false → JsNum.le stake (.num 0) = false →
      JsNum.lt stake minB = false → JsNum.lt maxB stake = false →
      JsNum.lt bal stake = true →
      validateBetPlacement stake bal minB maxB mid bets = some .insufficientBalance) ∧
    (stake.isNaN = false → JsNum.le stake (.num 0) = false →
      JsNum.lt stake minB = false → JsNum.lt maxB stake = false →
      JsNum.lt bal stake = false →
      (bets.any fun b => decide (b.matchId = mid) && decide (b.status = BetStatus.pending)
        && decide (b.betType = BetKind.matchBet)) = true →
      validateBetPlacement stake bal minB maxB mid bets = some .duplicateBet) ∧
    validateBetPlacement .nan bal minB maxB mid bets = some .invalidStake ∧
    validateBetPlacement .negInf bal minB maxB mid bets = some .invalidStake ∧
    (∀ c : ℤ, validateBetPlacement .posInf (.num c) (.num minBetAmountCents)
      (.num maxBetAmountCents) mid bets = some .betTooLarge) := by
  refine ⟨?_, ?_, ?_, ?_, ?_, ?_, ?_, ?_⟩
  · rintro (h | h) <;> simp [validateBetPlacement, h]
  · intro h1 h2 h3; simp [validateBetPlacement, h1, h2, h3]
  · intro h1 h2 h3 h4; simp [validateBetPlacement, h1, h2, h3, h4]
  · intro h1 h2 h3 h4 h5; simp [validateBetPlacement, h1, h2, h3, h4, h5]
  · intro h1 h2 h3 h4 h5 h6; simp [validateBetPlacement, h1, h2, h3, h4, h5, h6]
  · simp [validateBetPlacement, JsNum.isNaN]
  · simp [validateBetPlacement, JsNum.isNaN, JsNum.le]
  · intro c; simp [validateBetPlacement, JsNum.isNaN, JsNum.le, JsNum.lt]

/-- C4 witness: a NaN stake is rejected by rule 1. -/
theorem c4_witness :
    validateBetPlacement .nan (.num 100000) (.num minBetAmountCents)
      (.num maxBetAmountCents) "m1" [] = some .invalidStake :=
  (c4_validation_order .nan (.num 100000) (.num minBetAmountCents)
    (.num maxBetAmountCents) "m1" []).1 (Or.inl rfl)

/-- A matured pending match wager used as a concrete settlement input. -/
def c5Bet : PlacedBet :=
  { id := "b1"
    matchId := "m1"
    stake := 2000
    odds := 250
    potentialWinnings := 5000
    matchTime := 1000
    status := .pending
    betType := .matchBet
    userId := "u1" }

/-- A wallet holding one matured pending match wager. -/
def c5Wallet : Wallet := { balance := 8000, bets := [c5Bet] }

/-- C5 counterexample: after a first sweeper pass resolves the only matured
pending wager, a second pass over the same wager id returns without any
error — it does not fail with a StateError — and leaves both the balance
and the wager collection unchanged. -/
theorem c5_counterexample :
    (resolveBets c5Wallet "u1" 2000 (fun _ => true) true).2 = none ∧
    (resolveBets (resolveBets c5Wallet "u1" 2000 (fun _ => true) true).1
        "u1" 2000 (fun _ => true) true).2 = none ∧
    (resolveBets (resolveBets c5Wallet "u1" 2000 (fun _ => true) true).1
        "u1" 2000 (fun _ => true) true).1
      = (resolveBets c5Wallet "u1" 2000 (fun _ => true) true).1 := by
  decide

/-- C5 (amended): resolving the same wagers twice credits the payout at most
once: the first sweeper pass resolves every matured pending wager, and a
second pass over the result is a no-op that returns without error, because
the already-resolved wagers are no longer pending and fall out of the
sweeper's filter. -/
theorem c5_resolve_idempotent (w : Wallet) (uid : String) (now : ℤ)
    (winOf : String → Bool) :
    resolveBets (resolveBets w uid now winOf true).1 uid now winOf true
      = ((resolveBets w uid now winOf true).1, none) := by
  by_cases h : (w.bets.filter (resolvable uid now)).length = 0
  · simp [resolveBets, h]
  · have hbets : (resolveBets w uid now winOf true).1.bets
        = w.bets.map (fun b => if resolvable uid now b then
            { b with status := if winOf b.id then .won else .lost } else b) := by
      simp [resolveBets, h]
    have h2 : ((resolveBets w uid now winOf true).1.bets.filter
        (resolvable uid now)).length = 0 := by
      rw [hbets]
      rw [List.length_eq_zero, List.filter_eq_nil_iff]
      intro a ha
      rcases List.mem_map.mp ha with ⟨b, _, rfl⟩
      by_cases hr : resolvable uid now b = true
      · rw [if_pos hr]
        cases hwb : winOf b.id <;> simp [resolvable, hwb]
      · rw [if_neg hr]
        exact hr
    conv_lhs => rw [resolveBets]
    simp [h2]

/-- C2: `placeBet` is atomic — on success exactly both effects occur
together: a new wager record with status pending is prepended and the
balance decreases by the stake; on any failure (validation error or commit
error) neither effect occurs, the wallet is unchanged, and the caller
receives the typed error. -/
theorem c2_placeBet_atomic (w : Wallet) (uid mid nid : String) (stake : JsNum)
    (odds mt : ℤ) (ok : Bool) :
    ((placeBet w uid mid nid stake odds mt ok).2 = none →
      (placeBet w uid mid nid stake odds mt ok).1.balance = w.balance - stake.cents ∧
      (placeBet w uid mid nid stake odds mt ok).1.bets
        = newMatchBet uid mid nid stake.cents odds mt :: w.bets ∧
      (newMatchBet uid mid nid stake.cents odds mt).status = .pending) ∧
    (∀ e : WalletErr, (placeBet w uid mid nid stake odds mt ok).2 = some e →
      (placeBet w uid mid nid stake odds mt ok).1 = w) ∧
    (∀ e, validateBetPlacement stake (.num w.balance) (.num minBetAmountCents)
        (.num maxBetAmountCents) mid w.bets = some e →
      (placeBet w uid mid nid stake odds mt ok).2 = some (.validation e)) ∧
    (validateBetPlacement stake (.num w.balance) (.num minBetAmountCents)
        (.num maxBetAmountCents) mid w.bets = none → ok = false →
      (placeBet w uid mid nid stake odds mt ok).2 = some .commitFailed) := by
  unfold placeBet
  cases hv : validateBetPlacement stake (.num w.balance) (.num minBetAmountCents)
      (.num maxBetAmountCents) mid w.bets <;> cases ok <;>
    simp [newMatchBet]

/-- C2 witness: a concrete successful placement debits the stake and
prepends the pending wager. -/
theorem c2_witness :
    (placeBet ⟨100000, []⟩ "u1" "m1" "b1" (.num 1000) 250 5000 true).1.balance
      = 99000 := by
  have h := (c2_placeBet_atomic ⟨100000, []⟩ "u1" "m1" "b1" (.num 1000) 250
    5000 true).1 (by decide)
  rw [h.1]
  decide

/-- C6: on a user's pending match wager, withdrawal (with the commit
succeeding) succeeds exactly when the match starts more than the 5-minute
cutoff from now; on success the wager's status becomes withdrawn and exactly
the stake is credited back; inside the cutoff the call fails with the
cutoff error and balance and wager status are unchanged. -/
theorem c6_withdraw_cutoff (w : Wallet) (uid betId : String) (now : ℤ)
    (b : PlacedBet)
    (hf : w.bets.find? (fun x => decide (x.id = betId) && decide (x.userId = uid))
        = some b)
    (hk : b.betType = .matchBet) (hs : b.status = .pending) :
    ((withdrawBet w uid betId now true).2 = none ↔
      betWithdrawalCutoffMs < b.matchTime - now) ∧
    (betWithdrawalCutoffMs < b.matchTime - now →
      withdrawBet w uid betId now true
        = ({ balance := w.balance + b.stake
             bets := w.bets.map (fun x =>
               if x.id = betId then { x with status := .withdrawn } else x) }, none)) ∧
    (b.matchTime - now ≤ betWithdrawalCutoffMs →
      withdrawBet w uid betId now true = (w, some .tooCloseToStart)) := by
  unfold withdrawBet
  rw [hf]
  by_cases hc : b.matchTime - now ≤ betWithdrawalCutoffMs
  · simp [hk, hs, hc]
  · simp [hk, hs, hc, not_le.mp hc]

/-- In a bet list with pairwise-distinct ids, two members sharing an id are
the same record. -/
theorem mem_id_inj {l : List PlacedBet} (h : (l.map PlacedBet.id).Nodup)
    {a b : PlacedBet} (ha : a ∈ l) (hb : b ∈ l) (hab : a.id = b.id) : a = b := by
  induction l with
  | nil => cases ha
  | cons x xs ih =>
    rw [List.map_cons, List.nodup_cons] at h
    rcases List.mem_cons.mp ha with rfl | ha2
    · rcases List.mem_cons.mp hb with rfl | hb2
      · rfl
      · exact absurd (by rw [hab]; exact List.mem_map_of_mem PlacedBet.id hb2) h.1
    · rcases List.mem_cons.mp hb with rfl | hb2
      · exact absurd (by rw [← hab]; exact List.mem_map_of_mem PlacedBet.id ha2) h.1
      · exact ih h.2 ha2 hb2

/-- C3: terminal wager statuses are immutable: a withdrawal targeting a
non-pending match wager fails with the state-transition error and changes
nothing; under unique bet ids no withdrawal ever alters a non-pending wager,
and no sweeper pass ever alters a non-pending wager — pending is the only
state any transition occurs from. -/
theorem c3_terminal_immutable (w : Wallet) (uid betId : String) (now : ℤ)
    (winOf : String → Bool) (ok : Bool) :
    (∀ b : PlacedBet,
      w.bets.find? (fun x => decide (x.id = betId) && decide (x.userId = uid)) = some b →
      b.betType = .matchBet → b.status ≠ .pending →
      withdrawBet w uid betId now ok = (w, some (.alreadySettled b.status))) ∧
    ((w.bets.map PlacedBet.id).Nodup →
      ∀ x ∈ w.bets, x.status ≠ .pending →
        x ∈ (withdrawBet w uid betId now ok).1.bets) ∧
    (∀ x ∈ w.bets, x.status ≠ .pending →
      x ∈ (resolveBets w uid now winOf ok).1.bets) := by
  refine ⟨?_, ?_, ?_⟩
  · intro b hf hk hs
    unfold withdrawBet
    rw [hf]
    simp [hk, hs]
  · intro hnd x hx hxs
    unfold withdrawBet
    cases hf : w.bets.find? (fun y => decide (y.id = betId) && decide (y.userId = uid)) with
    | none => simpa using hx
    | some b =>
      by_cases hk : b.betType ≠ .matchBet
      · simpa [hk] using hx
      · by_cases hs : b.status ≠ .pending
        · simpa [hk, hs] using hx
        · by_cases hc : b.matchTime - now ≤ betWithdrawalCutoffMs
          · simpa [hk, hs, hc] using hx
          · cases ok with
            | false => simpa [hk, hs, hc] using hx
            | true =>
              have hb1 : b.id = betId ∧ b.userId = uid := by
                have hp := List.find?_some hf
                simpa using hp
              have hbm : b ∈ w.bets := List.mem_of_find?_eq_some hf
              have hxid : ¬ x.id = betId := by
                intro hxe
                have hxb : x = b := mem_id_inj hnd hx hbm (by rw [hxe, hb1.1])
                rw [hxb] at hxs
                exact hxs (not_not.mp hs)
              simp only [if_neg hk, if_neg hs, if_neg hc, if_true]
              exact List.mem_map.mpr ⟨x, hx, by simp [hxid]⟩
  · intro x hx hxs
    unfold resolveBets
    by_cases h : (w.bets.filter (resolvable uid now)).length = 0
    · simpa [h] using hx
    · cases ok with
      | false => simpa [h] using hx
      | true =>
        have hrx : resolvable uid now x = false := by
          simp [resolvable, hxs]
        simp only [h, if_false, if_true]
        refine List.mem_map.mpr ⟨x, hx, ?_⟩
        simp [hrx]

/-- A wager already resolved as lost. -/
def c3Bet : PlacedBet :=
  { id := "b1"
    matchId := "m1"
    stake := 2000
    odds := 250
    potentialWinnings := 5000
    matchTime := 1000
    status := .lost
    betType := .matchBet
    userId := "u1" }

/-- A wallet holding one terminally-resolved match wager. -/
def c3Wallet : Wallet := { balance := 5000, bets := [c3Bet] }

/-- C3 witness: withdrawing a lost wager fails with the state-transition
error and leaves the wallet unchanged. -/
theorem c3_witness :
    withdrawBet c3Wallet "u1" "b1" 0 true
      = (c3Wallet, some (.alreadySettled .lost)) :=
  (c3_terminal_immutable c3Wallet "u1" "b1" 0 (fun _ => true) true).1 c3Bet
    (by decide) (by decide) (by decide)

/-- A pending match wager whose match starts 10 minutes after epoch zero. -/
def c6Bet : PlacedBet :=
  { id := "b1"
    matchId := "m1"
    stake := 2000
    odds := 250
    potentialWinnings := 5000
    matchTime := 600000
    status := .pending
    betType := .matchBet
    userId := "u1" }

/-- A wallet holding one withdrawable pending match wager. -/
def c6Wallet : Wallet := { balance := 5000, bets := [c6Bet] }

/-- C6 witness: with the match 10 minutes away the withdrawal succeeds and
refunds exactly the stake. -/
theorem c6_witness :
    withdrawBet c6Wallet "u1" "b1" 0 true
      = ({ balance := 7000
           bets := [{ c6Bet with status := .withdrawn }] }, none) := by
  have h := (c6_withdraw_cutoff c6Wallet "u1" "b1" 0 c6Bet (by decide)
    (by decide) (by decide)).2.1 (by decide)
  rw [h]
  decide

/-- The running-phase invariant of a round: while running the multiplier is
still below the crash point, and it never exceeds the crash point. -/
def RoundInv (r : Round) : Prop :=
  (r.phase = .running → r.mult < r.crashPoint) ∧ r.mult ≤ r.crashPoint

/-- The game-over effect establishes the invariant on any running round. -/
theorem roundInv_checkRound (r : Round) (hr : r.phase = .running) :
    RoundInv (checkRound r) := by
  unfold checkRound RoundInv
  rw [if_pos hr]
  by_cases h1 : r.crashPoint ≤ r.mult
  · simp [h1]
  · by_cases h2 : r.target ≤ r.mult
    · simp [h1, h2]
      omega
    · simp [h1, h2, hr]
      omega

/-- One advance preserves the invariant. -/
theorem roundInv_step {r : Round} (h : RoundInv r) : RoundInv (step r) := by
  unfold step
  by_cases hr : r.phase = .running
  · rw [if_pos hr]
    exact roundInv_checkRound _ hr
  · rwa [if_neg hr]

/-- A manual cash-out preserves the invariant. -/
theorem roundInv_cashOut {r : Round} (h : RoundInv r) : RoundInv (userCashOut r) := by
  unfold userCashOut
  by_cases hr : r.phase = .running
  · rw [if_pos hr]
    exact ⟨by simp, le_of_lt (h.1 hr)⟩
  · rwa [if_neg hr]

/-- Every state reachable from a started round satisfies the invariant. -/
theorem roundInv_reaches {stake cp tgt : ℕ} {bal : ℤ} {r : Round}
    (h : Reaches (initRound stake cp tgt bal) r) : RoundInv r := by
  induction h with
  | refl => exact roundInv_checkRound _ rfl
  | tick _ ih => exact roundInv_step ih
  | cashOut _ ih => exact roundInv_cashOut ih

/-- C7: in every reachable round state the running multiplier is still below
the crash point, so the crash fires on the first tick whose multiplier
reaches it; the crash transition clamps the reported multiplier to exactly
the crash point and leaves the balance untouched (no settlement credit), and
every reachable state — terminal ones included — has final multiplier at
most the crash point. -/
theorem c7_crash_clamped (stake cp tgt : ℕ) (bal : ℤ) (r : Round)
    (hr : Reaches (initRound stake cp tgt bal) r) :
    (r.phase = .running → r.mult < r.crashPoint) ∧
    r.mult ≤ r.crashPoint ∧
    (r.phase = .running → r.crashPoint ≤ tickMult r.mult →
      step r = { r with phase := .crashed, mult := r.crashPoint } ∧
      (step r).balance = r.balance) := by
  have hinv := roundInv_reaches hr
  refine ⟨hinv.1, hinv.2, ?_⟩
  intro hrun hcp
  unfold step checkRound
  simp [hrun, hcp]

/-- C7 witness: a freshly started round (stake 10, crash point 1.01) already
satisfies the clamping bound, and its first crash-reaching tick produces the
crashed state with unchanged balance. -/
theorem c7_witness :
    (initRound 1000 101 200 4000).mult ≤ (initRound 1000 101 200 4000).crashPoint ∧
    (step (initRound 1000 101 200 4000)).balance = (initRound 1000 101 200 4000).balance := by
  have h := c7_crash_clamped 1000 101 200 4000 _ (Reaches.refl _)
  exact ⟨h.2.1, (h.2.2 (by decide) (by decide)).2⟩

/-- C8 counterexample: a round with stake 10, auto-cash-out target 1.02 and
crash point 1.03 — the crash point strictly above the target — still
terminates crashed with no credit: the multiplier runs 1.00, 1.01, 1.03
(the tick past 1.01 skips 1.02), so the first tick at or past the target is
already at the crash point and the crash check fires before the
auto-cash-out check. -/
theorem c8_counterexample :
    (stepN 2 (initRound 1000 103 102 4000)).phase = .crashed ∧
    (initRound 1000 103 102 4000).target < (initRound 1000 103 102 4000).crashPoint ∧
    (stepN 2 (initRound 1000 103 102 4000)).balance = 4000 ∧
    step (stepN 2 (initRound 1000 103 102 4000)) = stepN 2 (initRound 1000 103 102 4000) := by
  decide

/-- C8 (amended): whenever the first tick that reaches the auto-cash-out
target is still below the crash point, the round terminates cashed-out at
that tick's multiplier — which is at least the target — and the settlement
credits exactly stake times that multiplier, exactly once: the terminal
state absorbs every further tick and any late cash-out command. -/
theorem c8_auto_cashout (r : Round) (hrun : r.phase = .running)
    (ht : r.target ≤ tickMult r.mult) (hc : tickMult r.mult < r.crashPoint) :
    step r = { r with phase := .cashedOut
                      mult := tickMult r.mult
                      balance := r.balance + (winningsCents r.stake (tickMult r.mult) : ℤ) } ∧
    r.target ≤ (step r).mult ∧
    step (step r) = step r ∧
    userCashOut (step r) = step r := by
  have hnc : ¬ r.crashPoint ≤ tickMult r.mult := not_le.mpr hc
  have h1 : step r = { r with phase := .cashedOut
                              mult := tickMult r.mult
                              balance := r.balance + (winningsCents r.stake (tickMult r.mult) : ℤ) } := by
    unfold step checkRound
    simp [hrun, hnc, ht]
  refine ⟨h1, ?_, ?_, ?_⟩
  · rw [h1]; exact ht
  · rw [h1]; unfold step; simp
  · rw [h1]; unfold userCashOut; simp

/-- C8 witness: the specification scenario — balance 40 after a 10-unit
stake, target 2.00, crash point 5.00 — cashes out on the first tick at or
past 2.00 (the multiplier 2.01) and settles the balance to 60.10. -/
theorem c8_witness :
    (step (stepN 50 (initRound 1000 500 200 4000))).phase = .cashedOut ∧
    (step (stepN 50 (initRound 1000 500 200 4000))).balance = 6010 := by
  have h := c8_auto_cashout (stepN 50 (initRound 1000 500 200 4000))
    (by decide) (by decide) (by decide)
  rw [h.1]
  exact ⟨rfl, by decide⟩

/-- C1 counterexample: `updateBalance` applies its delta with no overdraft
check: from a balance of 5.00 units a direct delta of -10.00 is not rejected
and drives the balance to -5.00. -/
theorem c1_counterexample :
    updateBalance ⟨500, []⟩ (-1000) = ⟨-500, []⟩ ∧
    (updateBalance ⟨500, []⟩ (-1000)).balance < 0 := by
  decide

/-- A stake surviving `validateBetPlacement` against a finite balance is a
finite positive amount not exceeding that balance. -/
theorem validateBet_none_bounds {stake : JsNum} {bal : ℤ} {minB maxB : JsNum}
    {mid : String} {bets : List PlacedBet}
    (h : validateBetPlacement stake (.num bal) minB maxB mid bets = none) :
    ∃ c : ℤ, stake = .num c ∧ 0 < c ∧ c ≤ bal := by
  have h1 : (stake.isNaN || JsNum.le stake (.num 0)) = false := by
    by_contra hx
    rw [Bool.not_eq_false] at hx
    simp [validateBetPlacement, hx] at h
  have h2 : JsNum.lt stake minB = false := by
    by_contra hx
    rw [Bool.not_eq_false] at hx
    simp [validateBetPlacement, h1, hx] at h
  have h3 : JsNum.lt maxB stake = false := by
    by_contra hx
    rw [Bool.not_eq_false] at hx
    simp [validateBetPlacement, h1, h2, hx] at h
  have h4 : JsNum.lt (.num bal) stake = false := by
    by_contra hx
    rw [Bool.not_eq_false] at hx
    simp [validateBetPlacement, h1, h2, h3, hx] at h
  cases stake with
  | nan => simp [JsNum.isNaN] at h1
  | negInf => simp [JsNum.isNaN, JsNum.le] at h1
  | posInf => simp [JsNum.lt] at h4
  | num c =>
    refine ⟨c, rfl, ?_, ?_⟩
    · simp [JsNum.isNaN, JsNum.le] at h1
      omega
    · simp [JsNum.lt] at h4
      omega

/-- A stake surviving `validateGameAction` under `place_bet` against a
finite balance is a finite positive amount not exceeding that balance. -/
theorem validateGame_none_bounds {stake : JsNum} {bal : ℤ} {minB maxB : JsNum}
    (h : validateGameAction .placeBetAction stake (.num bal) minB maxB = none) :
    ∃ c : ℤ, stake = .num c ∧ 0 < c ∧ c ≤ bal := by
  have h1 : (stake.isNaN || JsNum.le stake (.num 0)) = false := by
    by_contra hx
    rw [Bool.not_eq_false] at hx
    simp [validateGameAction, hx] at h
  have h2 : JsNum.lt stake minB = false := by
    by_contra hx
    rw [Bool.not_eq_false] at hx
    simp [validateGameAction, h1, hx] at h
  have h3 : JsNum.lt maxB stake = false := by
    by_contra hx
    rw [Bool.not_eq_false] at hx
    simp [validateGameAction, h1, h2, hx] at h
  have h4 : JsNum.lt (.num bal) stake = false := by
    by_contra hx
    rw [Bool.not_eq_false] at hx
    simp [validateGameAction, h1, h2, h3, hx] at h
  cases stake with
  | nan => simp [JsNum.isNaN] at h1
  | negInf => simp [JsNum.isNaN, JsNum.le] at h1
  | posInf => simp [JsNum.lt] at h4
  | num c =>
    refine ⟨c, rfl, ?_, ?_⟩
    · simp [JsNum.isNaN, JsNum.le] at h1
      omega
    · simp [JsNum.lt] at h4
      omega

/-- Each guarded wallet operation preserves nonnegativity of the balance and
of every recorded stake. -/
theorem applyOp_inv (w : Wallet) (op : WalletOp) (hb : 0 ≤ w.balance)
    (hs : ∀ b ∈ w.bets, 0 ≤ b.stake) :
    0 ≤ (applyOp w op).balance ∧ ∀ b ∈ (applyOp w op).bets, 0 ≤ b.stake := by
  cases op with
  | addFundsOp a =>
    simp only [applyOp, addFunds]
    by_cases ha : a ≤ 0
    · simpa [ha] using ⟨hb, hs⟩
    · refine ⟨?_, by simpa [ha] using hs⟩
      simp only [ha, if_false]
      omega
  | placeBetOp uid mid nid stake odds mt ok =>
    simp only [applyOp, placeBet]
    cases hv : validateBetPlacement stake (.num w.balance) (.num minBetAmountCents)
        (.num maxBetAmountCents) mid w.bets with
    | some e => exact ⟨hb, hs⟩
    | none =>
      rcases validateBet_none_bounds hv with ⟨c, rfl, hc0, hcb⟩
      cases ok with
      | false => exact ⟨hb, hs⟩
      | true =>
        refine ⟨?_, ?_⟩
        · show 0 ≤ w.balance - (JsNum.num c).cents
          simp only [JsNum.cents]
          omega
        · show ∀ b ∈ newMatchBet uid mid nid (JsNum.num c).cents odds mt :: w.bets, 0 ≤ b.stake
          rw [List.forall_mem_cons]
          refine ⟨?_, hs⟩
          show 0 ≤ (newMatchBet uid mid nid (JsNum.num c).cents odds mt).stake
          simp only [newMatchBet, JsNum.cents]
          omega
  | placeGameBetOp stake mn mx ok =>
    simp only [applyOp, placeGameBet]
    cases hv : validateGameAction .placeBetAction stake (.num w.balance) mn mx with
    | some e => exact ⟨hb, hs⟩
    | none =>
      rcases validateGame_none_bounds hv with ⟨c, rfl, hc0, hcb⟩
      cases ok with
      | false => exact ⟨hb, hs⟩
      | true =>
        refine ⟨?_, hs⟩
        show 0 ≤ w.balance - (JsNum.num c).cents
        simp only [JsNum.cents]
        omega
  | planeStartOp bet target =>
    simp only [applyOp, planeStart]
    split_ifs with g1 g2 g3
    · exact ⟨hb, hs⟩
    · exact ⟨hb, hs⟩
    · exact ⟨hb, hs⟩
    · refine ⟨?_, hs⟩
      show 0 ≤ (updateBalance w (-bet.cents)).balance
      cases bet with
      | nan => simp [JsNum.isNaN] at g1
      | negInf => simp [JsNum.isNaN, JsNum.lt] at g1
      | posInf => simp [JsNum.isNaN, JsNum.lt] at g1
      | num c =>
        have hcb : c ≤ w.balance := by
          simp [JsNum.lt] at g2
          omega
        simp only [updateBalance, JsNum.cents]
        omega
  | gameCreditOp s m =>
    simp only [applyOp, gameCredit, updateBalance]
    refine ⟨?_, hs⟩
    have hp : (0 : ℤ) ≤ (winningsCents s m : ℤ) := Int.ofNat_nonneg _
    omega
  | withdrawOp uid bid now ok =>
    simp only [applyOp]
    cases hf : w.bets.find? (fun y => decide (y.id = bid) && decide (y.userId = uid)) with
    | none =>
      have he : withdrawBet w uid bid now ok = (w, some .betNotFound) := by
        unfold withdrawBet
        rw [hf]
      rw [he]
      exact ⟨hb, hs⟩
    | some b =>
      by_cases k1 : b.betType = .matchBet
      · by_cases k2 : b.status = .pending
        · by_cases k3 : b.matchTime - now ≤ betWithdrawalCutoffMs
          · have he : withdrawBet w uid bid now ok = (w, some .tooCloseToStart) := by
              unfold withdrawBet
              rw [hf]
              simp [k1, k2, k3]
            rw [he]
            exact ⟨hb, hs⟩
          · cases ok with
            | false =>
              have he : withdrawBet w uid bid now false = (w, some .commitFailed) := by
                unfold withdrawBet
                rw [hf]
                simp [k1, k2, k3]
              rw [he]
              exact ⟨hb, hs⟩
            | true =>
              have he : withdrawBet w uid bid now true
                  = ({ balance := w.balance + b.stake
                       bets := w.bets.map (fun x =>
                         if x.id = bid then { x with status := .withdrawn } else x) },
                     none) := by
                unfold withdrawBet
                rw [hf]
                simp [k1, k2, k3]
              rw [he]
              have hbs : 0 ≤ b.stake := hs b (List.mem_of_find?_eq_some hf)
              refine ⟨?_, ?_⟩
              · show 0 ≤ w.balance + b.stake
                omega
              intro x hx
              rcases List.mem_map.mp hx with ⟨y, hy, rfl⟩
              by_cases hid : y.id = bid
              · simpa [hid] using hs y hy
              · simpa [hid] using hs y hy
        · have he : withdrawBet w uid bid now ok = (w, some (.alreadySettled b.status)) := by
            unfold withdrawBet
            rw [hf]
            simp [k1, k2]
          rw [he]
          exact ⟨hb, hs⟩
      · have he : withdrawBet w uid bid now ok = (w, some .notWithdrawable) := by
          unfold withdrawBet
          rw [hf]
          simp [k1]
        rw [he]
        exact ⟨hb, hs⟩
  | resolveOp uid now f ok =>
    simp only [applyOp, resolveBets]
    by_cases h0 : (w.bets.filter (resolvable uid now)).length = 0
    · simpa [h0] using ⟨hb, hs⟩
    · cases ok with
      | false => simpa [h0] using ⟨hb, hs⟩
      | true =>
        simp only [h0, if_false, if_true]
        refine ⟨?_, ?_⟩
        · by_cases ht : 0 < ((w.bets.filter (resolvable uid now)).filter
              (fun b => f b.id)).foldl (fun s b => s + b.potentialWinnings) 0
          · simp only [ht, if_true]
            omega
          · simp only [ht, if_false]
            exact hb
        · intro x hx
          rcases List.mem_map.mp hx with ⟨y, hy, rfl⟩
          by_cases hr : resolvable uid now y = true
          · rw [if_pos hr]
            simpa using hs y hy
          · rw [if_neg hr]
            exact hs y hy

/-- C1 (amended): every guarded mutation path — the validated stake debits
of `placeBet`, `placeGameBet` and the plane game's `startGame`, the
positive-only credits of `addFunds`, sweeper resolution, withdrawal refunds
and cash-out settlements — rejects any delta that would overdraw, so every
sequence of these wallet operations from a nonnegative balance (with
nonnegative recorded stakes) keeps the balance nonnegative; only the raw
`updateBalance`, which checks nothing, can break this. -/
theorem c1_no_overdraft (ops : List WalletOp) (w : Wallet)
    (hb : 0 ≤ w.balance) (hs : ∀ b ∈ w.bets, 0 ≤ b.stake) :
    0 ≤ (runOps w ops).balance := by
  induction ops generalizing w with
  | nil => simpa [runOps] using hb
  | cons op ops ih =>
    have h := applyOp_inv w op hb hs
    simpa [runOps] using ih (applyOp w op) h.1 h.2

/-- C1 witness: a concrete operation sequence — funding, an event wager, a
plane-game round with cash-out, and a withdrawal attempt — keeps the balance
nonnegative from an empty start. -/
theorem c1_witness :
    0 ≤ (runOps ⟨0, []⟩
      [WalletOp.addFundsOp 100000,
       WalletOp.placeBetOp "u1" "m1" "b1" (.num 2000) 250 999 true,
       WalletOp.planeStartOp (.num 1000) (.num 200),
       WalletOp.gameCreditOp 1000 200,
       WalletOp.withdrawOp "u1" "b1" 0 true]).balance :=
  c1_no_overdraft _ _ (by decide) (by simp)
